import Mathlib

/-!
Verification of the GitHub commit embed plugin (`src/main.ts`).

The development shallowly embeds the plugin's core pipeline:

* the strict paste gate `isGitHubCommitUrl` and the permissive extractor
  `parseCommitUrl` (both JavaScript regexes, modelled as executable matchers
  over `List Char` with the semantics of the `/i` flag made explicit);
* the normalization step of `fetchCommit` (the untyped `response.json` cast
  and the `||` fallback chain), with the network call turned into an explicit
  `Except` argument;
* the modal lifecycle of `CommitEmbedModal` (`onOpen`, the three buttons) over
  an explicit editor state;
* `formatDate` and `generateHtmlEmbed`, with the JavaScript `Date`/locale
  collaborator modelled as an ISO-8601 parser.

JSON fields that can be absent (`undefined` in JavaScript) are modelled as
`Option`; the TypeScript cast `response.json as GitHubCommitResponse`
performs no runtime validation, so every field of the raw response is
optional in the model.
-/

/-! ## Character-level model of the JavaScript `/i` flag

The two regexes in `src/main.ts` carry the `i` flag.  For the ASCII-only
patterns involved, JavaScript's (non-unicode) canonicalization amounts to
folding the ASCII letters `A`–`Z` (code points 65–90) onto `a`–`z`; every
other character only matches itself. -/

/-- Fold an ASCII upper-case code point onto its lower-case form; leave every
other code point unchanged.  This is the canonicalization JavaScript applies
to both the pattern and the input under the `i` flag for ASCII patterns. -/
def lowerNat (n : Nat) : Nat := if 65 ≤ n ∧ n ≤ 90 then n + 32 else n

/-- Canonical key of a character under case-insensitive matching. -/
def canon (c : Char) : Nat := lowerNat c.toNat

/-- Case-insensitive character equality, as used by the `/i` regexes. -/
def ciEq (c d : Char) : Bool := canon c == canon d

/-- Canonical key of a character list (for stating case-insensitive
equalities of whole literals). -/
def canonList (l : List Char) : List Nat := l.map canon

/-- Strip a literal pattern prefix from the input, case-insensitively
(the `/i` semantics of a literal run inside the regex).  Returns the
remaining input on success. -/
def stripPrefixCI : List Char → List Char → Option (List Char)
  | [], s => some s
  | _ :: _, [] => none
  | c :: p, d :: s => if ciEq c d then stripPrefixCI p s else none

/-- Strip a literal pattern prefix case-sensitively (used only to state the
claim's reading of the gate pattern, in which case-insensitivity is limited
to scheme and host). -/
def stripPrefixCS : List Char → List Char → Option (List Char)
  | [], s => some s
  | _ :: _, [] => none
  | c :: p, d :: s => if c = d then stripPrefixCS p s else none

/-- The optional `s` of `https?`: consume one further character when it is an
`s`/`S` (the regex backtracks correctly here because after `s?` the pattern
demands `:`, which can never be an `s`). -/
def optS : List Char → List Char
  | [] => []
  | c :: r => if ciEq 's' c then r else c :: r

/-- Semantics of `([^/]+)\/` at the head of the input: split off the
(possibly empty) run of non-`/` characters before the first `/`, consuming
that `/`.  Fails when the input contains no `/` at all.  (Emptiness of the
segment is checked by the callers, since `+` demands at least one
character.) -/
def splitAtSlash : List Char → Option (List Char × List Char)
  | [] => none
  | c :: s =>
    if c = '/' then some ([], s)
    else (splitAtSlash s).map (fun p => (c :: p.1, p.2))

/-- The character class `[a-f0-9]` under the `/i` flag: decimal digits and
hexadecimal letters of either case. -/
def isHexDigitCI (c : Char) : Bool :=
  decide ((48 ≤ c.toNat ∧ c.toNat ≤ 57) ∨ (97 ≤ c.toNat ∧ c.toNat ≤ 102) ∨
    (65 ≤ c.toNat ∧ c.toNat ≤ 70))

/-- The character class `[a-f0-9]` without the `/i` flag: the claim's reading
of the sha alphabet (lower-case hex only). -/
def isLowerHex (c : Char) : Bool :=
  decide ((48 ≤ c.toNat ∧ c.toNat ≤ 57) ∨ (97 ≤ c.toNat ∧ c.toNat ≤ 102))

/-- The literal `http` of the scheme. -/
def patHttp : List Char := ['h', 't', 't', 'p']

/-- The literal `://`. -/
def patSep : List Char := [':', '/', '/']

/-- The literal `github.com/` (the host and the following slash; the dot is
escaped in both regexes, hence literal). -/
def patHost : List Char := ['g', 'i', 't', 'h', 'u', 'b', '.', 'c', 'o', 'm', '/']

/-- The literal `://github.com/`. -/
def patSepHost : List Char :=
  [':', '/', '/', 'g', 'i', 't', 'h', 'u', 'b', '.', 'c', 'o', 'm', '/']

/-- The literal `commit/`. -/
def patCommit : List Char := ['c', 'o', 'm', 'm', 'i', 't', '/']

/-! ## The strict paste gate (`isGitHubCommitUrl`, `src/main.ts:236-238`)

```
return /^https?:\/\/github\.com\/[^/]+\/[^/]+\/commit\/[a-f0-9]+$/i.test(text);
```

The anchored regex matches iff the input decomposes as
scheme `http(s)` + `://github.com/` + owner + `/` + repo + `/commit/` + sha,
with owner and repo nonempty and slash-free and sha a nonempty run of hex
characters extending to the end of the string.  Because `[^/]+` cannot cross
a `/` and the remaining pieces are literals, the decomposition is forced and
the matcher below is deterministic. -/

/-- The part of the strict gate after `https?://github.com/`:
`([^/]+)\/([^/]+)\/commit\/([a-f0-9]+)$`.  Returns the three capture
groups. -/
def strictTail (s : List Char) : Option (List Char × List Char × List Char) :=
  match splitAtSlash s with
  | none => none
  | some (owner, s1) =>
    match splitAtSlash s1 with
    | none => none
    | some (repo, s2) =>
      match stripPrefixCI patCommit s2 with
      | none => none
      | some sha =>
        if owner ≠ [] ∧ repo ≠ [] ∧ sha ≠ [] ∧ sha.all isHexDigitCI then
          some (owner, repo, sha)
        else none

/-- Full-match semantics of the strict gate regex, returning the capture
groups `owner`, `repo`, `sha`. -/
def strictMatch (s : List Char) : Option (List Char × List Char × List Char) :=
  match stripPrefixCI patHttp s with
  | none => none
  | some s1 =>
    match stripPrefixCI patSepHost (optS s1) with
    | none => none
    | some s2 => strictTail s2

/-- `isGitHubCommitUrl` (`src/main.ts:236-238`): the strict paste-time
gate. -/
def isGitHubCommitUrl (text : String) : Bool :=
  (strictMatch text.toList).isSome

/-! ## The permissive parser (`parseCommitUrl`, `src/main.ts:146-150`)

```
const match = url.match(/github\.com\/([^/]+)\/([^/]+)\/commit\/([a-f0-9]+)/i);
if (!match) return null;
return { owner: match[1], repo: match[2], sha: match[3] };
```

The regex is unanchored: `String.match` scans start positions left to right
and reports the first position at which the whole pattern succeeds; the
final `[a-f0-9]+` is greedy, taking the maximal hex run. -/

/-- The part of the permissive pattern after `github.com/`; the trailing sha
group takes the maximal hex run and the match need not reach the end of the
input. -/
def permissiveTail (s : List Char) : Option (List Char × List Char × List Char) :=
  match splitAtSlash s with
  | none => none
  | some (owner, s1) =>
    match splitAtSlash s1 with
    | none => none
    | some (repo, s2) =>
      match stripPrefixCI patCommit s2 with
      | none => none
      | some s3 =>
        if owner ≠ [] ∧ repo ≠ [] ∧ s3.takeWhile isHexDigitCI ≠ [] then
          some (owner, repo, s3.takeWhile isHexDigitCI)
        else none

/-- Attempt the permissive pattern at one start position. -/
def tryParseAt (s : List Char) : Option (List Char × List Char × List Char) :=
  match stripPrefixCI patHost s with
  | none => none
  | some s1 => permissiveTail s1

/-- Scan start positions left to right, reporting the first full success —
the semantics of an unanchored `String.match`. -/
def searchCommitPattern : List Char → Option (List Char × List Char × List Char)
  | [] => none
  | c :: rest =>
    match tryParseAt (c :: rest) with
    | some r => some r
    | none => searchCommitPattern rest

/-- `ParsedUrlRef`: the `{owner, repo, sha}` triple extracted by
`parseCommitUrl`. -/
structure ParsedUrlRef where
  owner : String
  repo : String
  sha : String
deriving Repr, DecidableEq

/-- `parseCommitUrl` (`src/main.ts:146-150`). -/
def parseCommitUrl (url : String) : Option ParsedUrlRef :=
  match searchCommitPattern url.toList with
  | none => none
  | some (o, r, sh) => some ⟨o.asString, r.asString, sh.asString⟩

/-- The gate pattern as claim C1 words it: case-insensitivity only on scheme
and host, the `commit` path segment matched case-sensitively, and the sha
restricted to lower-case hexadecimal characters. -/
def specStrictPattern (text : String) : Bool :=
  match stripPrefixCI patHttp text.toList with
  | none => false
  | some s1 =>
    match stripPrefixCS patSep (optS s1) with
    | none => false
    | some s2 =>
      match stripPrefixCI patHost s2 with
      | none => false
      | some s3 =>
        match splitAtSlash s3 with
        | none => false
        | some (owner, s4) =>
          match splitAtSlash s4 with
          | none => false
          | some (repo, s5) =>
            match stripPrefixCS patCommit s5 with
            | none => false
            | some sha =>
              decide (owner ≠ []) && decide (repo ≠ []) && decide (sha ≠ []) &&
                sha.all isLowerHex

example : isGitHubCommitUrl "https://github.com/octo/repo/commit/abc123" = true := by decide
example : isGitHubCommitUrl "http://GitHub.Com/octo/repo/commit/ABC" = true := by decide
example : isGitHubCommitUrl "https://github.com/octo/repo/commit/abc/x" = false := by decide
example : isGitHubCommitUrl "https://github.com//repo/commit/abc" = false := by decide
example : isGitHubCommitUrl "https://github.com/octo/repo/commit/" = false := by decide
example : isGitHubCommitUrl "xhttps://github.com/octo/repo/commit/ab" = false := by decide
example : specStrictPattern "https://github.com/o/r/commit/ABC" = false := by decide
example : specStrictPattern "https://github.com/o/r/commit/abc" = true := by decide
example :
    parseCommitUrl "see https://github.com/a/b/commit/deadbeef please" =
      some ⟨"a", "b", "deadbeef"⟩ := by decide
example : parseCommitUrl "no url here" = none := by decide
example :
    parseCommitUrl "github.com/a/b/commit/xyz github.com/c/d/commit/abc" =
      some ⟨"c", "d", "abc"⟩ := by decide

/-! ## The raw API response and the normalized `CommitData`

`fetchCommit` obtains `response.json` and casts it with
`as GitHubCommitResponse` — a TypeScript-level assertion with no runtime
check.  Every field of the raw response is therefore modelled as an
`Option`, `none` standing for an absent field (`undefined` in JavaScript).
Consequently the fields of the constructed `CommitData` that are copied
without a fallback may themselves hold `undefined`, which the model records
as `Option` as well. -/

/-- The optional `author` object of the API response (the platform
account). -/
structure RawAccount where
  login : Option String
  avatar_url : Option String
deriving Repr, DecidableEq

/-- The `commit.author` object of the API response (raw git author). -/
structure RawCommitAuthor where
  name : Option String
  date : Option String
deriving Repr, DecidableEq

/-- The `commit` object of the API response. -/
structure RawCommit where
  message : Option String
  author : Option RawCommitAuthor
deriving Repr, DecidableEq

/-- The optional `stats` object of the API response. -/
structure RawStats where
  additions : Option Nat
  deletions : Option Nat
deriving Repr, DecidableEq

/-- `GitHubCommitResponse` (`src/main.ts:21-39`), with every field optional
because the cast from `response.json` validates nothing. -/
structure GitHubCommitResponse where
  sha : Option String
  html_url : Option String
  commit : Option RawCommit
  author : Option RawAccount
  stats : Option RawStats
deriving Repr, DecidableEq

/-- Author part of `CommitData` (`src/main.ts:7-10`).  `login` can hold
`undefined` (modelled `none`) when both the account login and the raw
author name are absent; `avatarUrl` always receives a string thanks to the
`|| ''` fallback. -/
structure CommitAuthorView where
  login : Option String
  avatarUrl : String
deriving Repr, DecidableEq

/-- Stats part of `CommitData` (`src/main.ts:12-15`); the `|| 0` fallbacks
always produce a number. -/
structure CommitStats where
  additions : Nat
  deletions : Nat
deriving Repr, DecidableEq

/-- `CommitData` (`src/main.ts:4-19`) as actually constructed by
`fetchCommit`: the fields copied verbatim from the unvalidated response
(`sha`, `message`, `date`, `url`) may hold `undefined`. -/
structure CommitData where
  sha : Option String
  message : Option String
  author : CommitAuthorView
  date : Option String
  stats : CommitStats
  url : Option String
  owner : String
  repo : String
deriving Repr, DecidableEq

/-- JavaScript `x || y` for two possibly-`undefined` strings: the left
operand is kept only when it is truthy (present and nonempty). -/
def jsOrOpt (x y : Option String) : Option String :=
  match x with
  | some s => if s = "" then y else some s
  | none => y

/-- JavaScript `x || d` where the right operand is a plain string. -/
def jsOrStr (x : Option String) (d : String) : String :=
  match x with
  | some s => if s = "" then d else s
  | none => d

/-- JavaScript `x || d` for numbers: `0` is falsy. -/
def jsOrNat (x : Option Nat) (d : Nat) : Nat :=
  match x with
  | some n => if n = 0 then d else n
  | none => d

/-- Truthiness of a possibly-`undefined` string. -/
def jsTruthy (x : Option String) : Bool :=
  match x with
  | some s => !(s == "")
  | none => false

/-- Errors that can escape `fetchCommit`.  `invalidUrl` is the explicit
`throw new Error('Invalid GitHub commit URL')`; `requestFailed` stands for a
rejection of the `requestUrl` collaborator (transport failure, non-success
HTTP status, or an unparseable JSON body — it throws in all three cases);
`typeError` is a JavaScript `TypeError` raised by a property access on
`undefined` during the construction of `CommitData`, carrying the name of
the property being read. -/
inductive FetchError where
  | invalidUrl
  | requestFailed (msg : String)
  | typeError (targetProp : String)
deriving Repr, DecidableEq

/-- The `message` of the thrown error, as displayed by the modal. -/
def FetchError.message : FetchError → String
  | .invalidUrl => "Invalid GitHub commit URL"
  | .requestFailed m => m
  | .typeError p => "Cannot read properties of undefined (reading " ++ p ++ ")"

/-- The object-literal mapping at `src/main.ts:168-183`, evaluated in source
order.  When `data.commit` is `undefined`, the first field to dereference it
(`message: data.commit.message`) throws; when `data.commit.author` is
`undefined`, either the login fallback `data.commit.author.name` (reached
only when `data.author?.login` is falsy, by `||` short-circuit) or
`date: data.commit.author.date` throws.  No field is otherwise validated. -/
def normalizeResponse (parsed : ParsedUrlRef) (data : GitHubCommitResponse) :
    Except FetchError CommitData :=
  match data.commit with
  | none => .error (.typeError "message")
  | some c =>
    match c.author with
    | none =>
      if jsTruthy (data.author.bind RawAccount.login) then
        .error (.typeError "date")
      else
        .error (.typeError "name")
    | some a =>
      .ok
        { sha := data.sha
          message := c.message
          author :=
            { login := jsOrOpt (data.author.bind RawAccount.login) a.name
              avatarUrl := jsOrStr (data.author.bind RawAccount.avatar_url) "" }
          date := a.date
          stats :=
            { additions := jsOrNat (data.stats.bind RawStats.additions) 0
              deletions := jsOrNat (data.stats.bind RawStats.deletions) 0 }
          url := data.html_url
          owner := parsed.owner
          repo := parsed.repo }

/-- The fixed endpoint template of `fetchCommit`. -/
def apiUrl (parsed : ParsedUrlRef) : String :=
  "https://api.github.com/repos/" ++ parsed.owner ++ "/" ++ parsed.repo ++
    "/commits/" ++ parsed.sha

/-- `fetchCommit` (`src/main.ts:152-184`).  The single network round-trip is
passed in as `net`: `Except.error m` models a rejection of `requestUrl`
(with message `m`), `Except.ok data` a success-status response whose body
parsed as JSON. -/
def fetchCommit (url : String) (net : Except String GitHubCommitResponse) :
    Except FetchError CommitData :=
  match parseCommitUrl url with
  | none => .error .invalidUrl
  | some parsed =>
    match net with
    | .error m => .error (.requestFailed m)
    | .ok data => normalizeResponse parsed data

/-! ## `formatDate` (`src/main.ts:186-192`)

```
return new Date(isoDate).toLocaleDateString('en-US',
  { year: 'numeric', month: 'short', day: 'numeric' });
```

The `Date`/`Intl` collaborator is modelled by an ISO-8601 parser: a string
of the shape `YYYY-MM-DD`, optionally followed by `THH:MM:SS` and a final
`Z`, parses to its date components (the host time zone is modelled as UTC);
every other string yields an invalid date, which `toLocaleDateString`
renders as the constant string `"Invalid Date"` — not as the input. -/

/-- Parse exactly `n` decimal digits, returning their value and the rest. -/
def parseDigits : Nat → Nat → List Char → Option (Nat × List Char)
  | 0, acc, s => some (acc, s)
  | n + 1, acc, c :: s =>
    if 48 ≤ c.toNat ∧ c.toNat ≤ 57 then
      parseDigits n (acc * 10 + (c.toNat - 48)) s
    else none
  | _ + 1, _, [] => none

/-- Validate the optional time-of-day part `THH:MM:SS` (optionally suffixed
`Z`) of an ISO-8601 timestamp. -/
def validTime (l : List Char) : Bool :=
  match l with
  | [] => true
  | 'T' :: r =>
    match parseDigits 2 0 r with
    | some (h, ':' :: r2) =>
      match parseDigits 2 0 r2 with
      | some (mi, ':' :: r3) =>
        match parseDigits 2 0 r3 with
        | some (se, r4) =>
          decide (h ≤ 23 ∧ mi ≤ 59 ∧ se ≤ 59) && (r4 == [] || r4 == ['Z'])
        | _ => false
      | _ => false
    | _ => false
  | _ => false

/-- Modelled platform collaborator: JavaScript `new Date(s)` restricted to
the ISO-8601 strings the GitHub API produces; `none` is an invalid date. -/
def parseIsoDate (s : String) : Option (Nat × Nat × Nat) :=
  match parseDigits 4 0 s.toList with
  | none => none
  | some (y, rest) =>
    match rest with
    | '-' :: r2 =>
      match parseDigits 2 0 r2 with
      | some (mo, '-' :: r4) =>
        match parseDigits 2 0 r4 with
        | some (d, r5) =>
          if 1 ≤ mo ∧ mo ≤ 12 ∧ 1 ≤ d ∧ d ≤ 31 ∧ validTime r5 = true then
            some (y, mo, d)
          else none
        | none => none
      | _ => none
    | _ => none

/-- The `en-US` short month names used by `toLocaleDateString`. -/
def monthAbbrev : Nat → String
  | 1 => "Jan" | 2 => "Feb" | 3 => "Mar" | 4 => "Apr" | 5 => "May" | 6 => "Jun"
  | 7 => "Jul" | 8 => "Aug" | 9 => "Sep" | 10 => "Oct" | 11 => "Nov" | 12 => "Dec"
  | _ => ""

/-- `formatDate` (`src/main.ts:186-192`). -/
def formatDate (isoDate : String) : String :=
  match parseIsoDate isoDate with
  | some (y, mo, d) => monthAbbrev mo ++ " " ++ toString d ++ ", " ++ toString y
  | none => "Invalid Date"

example : formatDate "2024-01-05T10:00:00Z" = "Jan 5, 2024" := by decide
example : formatDate "not-a-date" = "Invalid Date" := by decide
example : formatDate "2024-13-05" = "Invalid Date" := by decide

/-! ## `generateHtmlEmbed` (`src/main.ts:194-220`)

The Markdown collaborator `marked.parse` is passed in as `render`.  Two
property accesses can throw when the unvalidated `CommitData` carries
`undefined`: `marked.parse(commit.message, ...)` rejects an `undefined`
input, and `commit.sha.substring(0, 7)` dereferences `undefined`; the
result is therefore an `Option`, `none` standing for a thrown error.
Interpolating a plain `undefined` into the template (login, url) produces
the text `"undefined"`, and `formatDate` of `undefined` renders as
`"Invalid Date"` — neither throws. -/

/-- Template interpolation of a possibly-`undefined` string. -/
def jsStr : Option String → String
  | some s => s
  | none => "undefined"

/-- `this.formatDate(commit.date)` where `date` may be `undefined`. -/
def formatDateJs : Option String → String
  | some s => formatDate s
  | none => "Invalid Date"

/-- `generateHtmlEmbed` (`src/main.ts:194-220`). -/
def generateHtmlEmbed (render : String → String) (commit : CommitData) :
    Option String :=
  match commit.message with
  | none => none
  | some msg =>
    let messageHtml := render msg
    let avatarHtml :=
      if commit.author.avatarUrl = "" then ""
      else
        "<img src=\"" ++ commit.author.avatarUrl ++
          "\" style=\"width: 32px; height: 32px; border-radius: 50%;\" alt=\"" ++
          jsStr commit.author.login ++ "\" />"
    match commit.sha with
    | none => none
    | some sha =>
      some
        ("<div style=\"border: 1px solid #d0d7de; border-radius: 8px; padding: 16px; margin: 8px 0; background: #ffffff; font-family: -apple-system, BlinkMacSystemFont, \x27Segoe UI\x27, Helvetica, Arial, sans-serif; color: #1f2328;\">\n" ++
          "  <div style=\"display: flex; align-items: center; gap: 12px; margin-bottom: 12px;\">\n" ++
          "    " ++ avatarHtml ++ "\n" ++
          "    <div>\n" ++
          "      <strong style=\"display: block; color: #1f2328;\">" ++
          jsStr commit.author.login ++ "</strong>\n" ++
          "      <span style=\"font-size: 0.85em; color: #656d76;\">" ++
          formatDateJs commit.date ++ "</span>\n" ++
          "      <span style=\"font-size: 0.85em; color: #656d76;\"> · </span>\n" ++
          "      <a href=\"https://github.com/" ++ commit.owner ++ "/" ++ commit.repo ++
          "\" style=\"font-size: 0.85em; color: #0969da; text-decoration: none;\">" ++
          commit.owner ++ "/" ++ commit.repo ++ "</a>\n" ++
          "    </div>\n" ++
          "  </div>\n" ++
          "  <div style=\"margin: 12px 0; color: #1f2328;\">\n" ++
          "    " ++ messageHtml ++ "\n" ++
          "  </div>\n" ++
          "  <div style=\"display: flex; justify-content: space-between; align-items: center; font-size: 0.85em;\">\n" ++
          "    <span style=\"font-family: monospace; color: #1a7f37; font-weight: 600;\">+" ++
          toString commit.stats.additions ++ "</span>\n" ++
          "    <span style=\"font-family: monospace; color: #cf222e; font-weight: 600;\">-" ++
          toString commit.stats.deletions ++ "</span>\n" ++
          "    <a href=\"" ++ jsStr commit.url ++
          "\" style=\"color: #0969da; text-decoration: none; font-weight: 500;\">" ++
          sha.take 7 ++ "</a>\n" ++
          "  </div>\n" ++
          "</div>")

/-! ## The modal (`CommitEmbedModal`, `src/main.ts:41-144`)

The editor is the single mutable collaborator: its document is
`before ++ selection ++ after`, and `replaceSelection` substitutes the
selection.  `onOpen` shows the loading text, awaits the fetch, replaces the
preview with the card or an error text, and only then renders the three
buttons; the sequence of visible modal states is made explicit as a list. -/

/-- The editor around its current selection. -/
structure EditorState where
  before : String
  selection : String
  after : String
deriving Repr, DecidableEq

/-- The document text held by the editor. -/
def EditorState.content (ed : EditorState) : String :=
  ed.before ++ ed.selection ++ ed.after

/-- `editor.replaceSelection(text)`: replace the current selection with
`text`, leaving the cursor after it. -/
def replaceSelection (ed : EditorState) (text : String) : EditorState :=
  { before := ed.before ++ text, selection := "", after := ed.after }

/-- Contents of the preview region of the modal. -/
inductive PreviewState where
  | loading
  | card (cd : CommitData)
  | errorText (msg : String)
deriving Repr, DecidableEq

/-- One visible state of the modal: the preview region plus whether the
button row has been created. -/
structure ModalView where
  preview : PreviewState
  buttonsRendered : Bool
deriving Repr, DecidableEq

/-- `this.commitData` after `onOpen` finishes: assigned inside the `try`
only when the fetch succeeded, otherwise left `null`. -/
def commitDataAfterOpen (url : String) (net : Except String GitHubCommitResponse) :
    Option CommitData :=
  match fetchCommit url net with
  | .ok cd => some cd
  | .error _ => none

/-- The preview region once the fetch has settled: the rendered card on
success, `Error: <message>` on failure (`src/main.ts:63-68`). -/
def settledPreview (url : String) (net : Except String GitHubCommitResponse) :
    PreviewState :=
  match fetchCommit url net with
  | .ok cd => .card cd
  | .error e => .errorText ("Error: " ++ e.message)

/-- The successive visible states produced by `onOpen`
(`src/main.ts:53-71`): loading text without buttons, settled preview still
without buttons, then `renderButtons` runs. -/
def onOpenStates (url : String) (net : Except String GitHubCommitResponse) :
    List ModalView :=
  [{ preview := .loading, buttonsRendered := false },
   { preview := settledPreview url net, buttonsRendered := false },
   { preview := settledPreview url net, buttonsRendered := true }]

/-- Outcome of one button click: the editor afterwards, and whether
`this.close()` was reached. -/
structure ClickResult where
  editor : EditorState
  closed : Bool
deriving Repr, DecidableEq

/-- The `Embed` button (`src/main.ts:119-126`): only when `this.commitData`
is set does it generate the card HTML and insert it followed by two
newlines; `close` runs afterwards in either case (but is not reached if the
generation itself throws on corrupt data). -/
def embedClick (commitData : Option CommitData) (render : String → String)
    (ed : EditorState) : ClickResult :=
  match commitData with
  | some cd =>
    match generateHtmlEmbed render cd with
    | some html => { editor := replaceSelection ed (html ++ "\n\n"), closed := true }
    | none => { editor := ed, closed := false }
  | none => { editor := ed, closed := true }

/-- The `Paste as text` button (`src/main.ts:128-132`): insert the URL the
modal was opened with, then close. -/
def textClick (url : String) (ed : EditorState) : ClickResult :=
  { editor := replaceSelection ed url, closed := true }

/-- The `Cancel` button (`src/main.ts:134-137`): close without touching the
editor. -/
def cancelClick (ed : EditorState) : ClickResult :=
  { editor := ed, closed := true }

/-! ## Lemmas about the matcher building blocks -/

theorem ciEq_iff {c d : Char} : ciEq c d = true ↔ canon c = canon d := by
  simp [ciEq]

theorem stripPrefixCI_shape : ∀ (p s r : List Char), stripPrefixCI p s = some r →
    ∃ d, s = d ++ r ∧ canonList d = canonList p := by
  intro p
  induction p with
  | nil =>
    intro s r h
    simp [stripPrefixCI] at h
    exact ⟨[], by simp [h], by simp [canonList]⟩
  | cons c p ih =>
    intro s r h
    cases s with
    | nil => simp [stripPrefixCI] at h
    | cons d s =>
      simp only [stripPrefixCI] at h
      split at h
      · rename_i hcd
        obtain ⟨d', hd1, hd2⟩ := ih s r h
        refine ⟨d :: d', by simp [hd1], ?_⟩
        simp only [canonList, List.map_cons] at hd2 ⊢
        exact by rw [hd2, ciEq_iff.mp hcd]
      · exact absurd h (by simp)

theorem stripPrefixCI_append : ∀ (p q s r : List Char),
    stripPrefixCI (p ++ q) s = some r →
    ∃ m, stripPrefixCI p s = some m ∧ stripPrefixCI q m = some r := by
  intro p
  induction p with
  | nil => intro q s r h; exact ⟨s, rfl, by simpa using h⟩
  | cons c p ih =>
    intro q s r h
    cases s with
    | nil => simp [stripPrefixCI] at h
    | cons d s =>
      simp only [List.cons_append, stripPrefixCI] at h ⊢
      split at h
      · rename_i hcd
        obtain ⟨m, h1, h2⟩ := ih q s r h
        exact ⟨m, by simp [hcd, h1], h2⟩
      · exact absurd h (by simp)

theorem splitAtSlash_eq : ∀ (s seg rest : List Char),
    splitAtSlash s = some (seg, rest) → s = seg ++ '/' :: rest ∧ '/' ∉ seg := by
  intro s
  induction s with
  | nil => intro seg rest h; simp [splitAtSlash] at h
  | cons c s ih =>
    intro seg rest h
    simp only [splitAtSlash] at h
    split at h
    · rename_i hc
      simp only [Option.some.injEq, Prod.mk.injEq] at h
      obtain ⟨h1, h2⟩ := h
      subst h1; subst h2; subst hc
      simp
    · rename_i hc
      cases hs : splitAtSlash s with
      | none => rw [hs] at h; simp at h
      | some p =>
        obtain ⟨seg', rest'⟩ := p
        rw [hs] at h
        simp only [Option.map_some', Option.some.injEq, Prod.mk.injEq] at h
        obtain ⟨h1, h2⟩ := h
        obtain ⟨ih1, ih2⟩ := ih seg' rest' hs
        subst h1; subst h2
        constructor
        · simp [ih1]
        · simp only [List.mem_cons, not_or]
          exact ⟨fun he => hc he.symm, ih2⟩

theorem takeWhile_eq_self_of_all : ∀ (l : List Char) (p : Char → Bool),
    l.all p = true → l.takeWhile p = l := by
  intro l p
  induction l with
  | nil => intro _; rfl
  | cons c l ih =>
    intro h
    simp only [List.all_cons, Bool.and_eq_true] at h
    simp [List.takeWhile_cons, h.1, ih h.2]

theorem tryParseAt_head_none (d : Char) (s : List Char) (h : canon d ≠ 103) :
    tryParseAt (d :: s) = none := by
  have hfalse : ciEq 'g' d = false := by
    have h103 : canon 'g' = 103 := rfl
    simp only [ciEq, h103, beq_eq_false_iff_ne, ne_eq]
    exact fun hx => h hx.symm
  unfold tryParseAt patHost
  simp [stripPrefixCI, hfalse]

theorem searchCommitPattern_cons_none {d : Char} {s : List Char}
    (h : tryParseAt (d :: s) = none) :
    searchCommitPattern (d :: s) = searchCommitPattern s := by
  simp [searchCommitPattern, h]

theorem searchCommitPattern_skip : ∀ (p s r : List Char),
    (∀ c ∈ p, canon c ≠ 103) → stripPrefixCI p s = some r →
    searchCommitPattern s = searchCommitPattern r := by
  intro p
  induction p with
  | nil =>
    intro s r _ h
    simp only [stripPrefixCI, Option.some.injEq] at h
    rw [h]
  | cons c p ih =>
    intro s r hner h
    cases s with
    | nil => simp [stripPrefixCI] at h
    | cons d s =>
      simp only [stripPrefixCI] at h
      split at h
      · rename_i hcd
        have hd : canon d ≠ 103 := by
          have hcc := ciEq_iff.mp hcd
          have hc := hner c (by simp)
          rw [← hcc]
          exact hc
        rw [searchCommitPattern_cons_none (tryParseAt_head_none d s hd)]
        exact ih s r (fun x hx => hner x (by simp [hx])) h
      · exact absurd h (by simp)

theorem strictTail_to_permissive : ∀ (s : List Char) t,
    strictTail s = some t → permissiveTail s = some t := by
  intro s t h
  unfold strictTail at h
  unfold permissiveTail
  cases h1 : splitAtSlash s with
  | none => simp [h1] at h
  | some p1 =>
    obtain ⟨owner, s1⟩ := p1
    simp only [h1] at h ⊢
    cases h2 : splitAtSlash s1 with
    | none => simp [h2] at h
    | some p2 =>
      obtain ⟨repo, s2⟩ := p2
      simp only [h2] at h ⊢
      cases h3 : stripPrefixCI patCommit s2 with
      | none => simp [h3] at h
      | some sha =>
        simp only [h3] at h ⊢
        split at h
        · rename_i hcond
          obtain ⟨ho, hr, hs, hall⟩ := hcond
          rw [takeWhile_eq_self_of_all sha isHexDigitCI hall]
          rw [if_pos ⟨ho, hr, hs⟩]
          exact h
        · exact absurd h (by simp)

theorem strict_to_search : ∀ (s : List Char) t, strictMatch s = some t →
    searchCommitPattern s = some t := by
  intro s t h
  unfold strictMatch at h
  cases h1 : stripPrefixCI patHttp s with
  | none => simp [h1] at h
  | some s1 =>
    simp only [h1] at h
    cases h2 : stripPrefixCI patSepHost (optS s1) with
    | none => simp [h2] at h
    | some s2 =>
      simp only [h2] at h
      have h2' : stripPrefixCI (patSep ++ patHost) (optS s1) = some s2 := by
        rw [show patSep ++ patHost = patSepHost from rfl]
        exact h2
      obtain ⟨m, hA, hB⟩ := stripPrefixCI_append _ _ _ _ h2'
      have w1 : searchCommitPattern s = searchCommitPattern s1 :=
        searchCommitPattern_skip _ _ _ (by decide) h1
      have w2 : searchCommitPattern s1 = searchCommitPattern (optS s1) := by
        cases s1 with
        | nil => rfl
        | cons c r =>
          simp only [optS]
          split
          · rename_i hsc
            have hc : canon c ≠ 103 := by
              have hcc := ciEq_iff.mp hsc
              rw [← hcc]
              decide
            exact searchCommitPattern_cons_none (tryParseAt_head_none c r hc)
          · rfl
      have w3 : searchCommitPattern (optS s1) = searchCommitPattern m :=
        searchCommitPattern_skip _ _ _ (by decide) hA
      have hm : tryParseAt m = some t := by
        unfold tryParseAt
        rw [hB]
        exact strictTail_to_permissive s2 t h
      cases m with
      | nil =>
        exfalso
        have : stripPrefixCI patHost ([] : List Char) = none := rfl
        rw [this] at hB
        exact absurd hB (by simp)
      | cons d m' =>
        rw [w1, w2, w3]
        simp [searchCommitPattern, hm]

theorem strictTail_shape : ∀ (s o r sh : List Char), strictTail s = some (o, r, sh) →
    ∃ dC, s = o ++ '/' :: (r ++ '/' :: (dC ++ sh)) ∧ canonList dC = canonList patCommit ∧
      o ≠ [] ∧ '/' ∉ o ∧ r ≠ [] ∧ '/' ∉ r ∧ sh ≠ [] ∧ sh.all isHexDigitCI = true := by
  intro s o r sh h
  unfold strictTail at h
  cases h1 : splitAtSlash s with
  | none => simp [h1] at h
  | some p1 =>
    obtain ⟨owner, s1⟩ := p1
    simp only [h1] at h
    cases h2 : splitAtSlash s1 with
    | none => simp [h2] at h
    | some p2 =>
      obtain ⟨repo, s2⟩ := p2
      simp only [h2] at h
      cases h3 : stripPrefixCI patCommit s2 with
      | none => simp [h3] at h
      | some sha =>
        simp only [h3] at h
        split at h
        · rename_i hcond
          obtain ⟨ho, hr, hs, hall⟩ := hcond
          simp only [Option.some.injEq, Prod.mk.injEq] at h
          obtain ⟨rfl, rfl, rfl⟩ := h
          obtain ⟨hs1, hno⟩ := splitAtSlash_eq s owner s1 h1
          obtain ⟨hs2, hnr⟩ := splitAtSlash_eq s1 repo s2 h2
          obtain ⟨dC, hdc1, hdc2⟩ := stripPrefixCI_shape patCommit s2 sha h3
          exact ⟨dC, by rw [hs1, hs2, hdc1], hdc2, ho, hno, hr, hnr, hs, hall⟩
        · simp at h

/-- Declarative reading of the gate pattern as the code has it: the shape
`https?://github.com/<owner>/<repo>/commit/<sha>` with the `/i` flag applied
to the whole pattern, so the scheme, the host, the `commit` segment and the
hexadecimal sha all match case-insensitively, while owner and repo are
nonempty runs of non-slash characters. -/
def SpecGateCI (s : List Char) : Prop :=
  ∃ pre owner repo cslash sha : List Char,
    s = pre ++ owner ++ '/' :: (repo ++ '/' :: (cslash ++ sha)) ∧
    (canonList pre = canonList ("http://github.com/".toList) ∨
      canonList pre = canonList ("https://github.com/".toList)) ∧
    owner ≠ [] ∧ '/' ∉ owner ∧ repo ≠ [] ∧ '/' ∉ repo ∧
    canonList cslash = canonList ("commit/".toList) ∧
    sha ≠ [] ∧ sha.all isHexDigitCI = true

theorem strictMatch_sound : ∀ (s : List Char) t, strictMatch s = some t →
    SpecGateCI s := by
  intro s t h
  obtain ⟨o, r, sh⟩ := t
  unfold strictMatch at h
  cases h1 : stripPrefixCI patHttp s with
  | none => simp [h1] at h
  | some s1 =>
    simp only [h1] at h
    cases h2 : stripPrefixCI patSepHost (optS s1) with
    | none => simp [h2] at h
    | some s2 =>
      simp only [h2] at h
      obtain ⟨dC, hshape, hdc, ho, hno, hr, hnr, hs, hall⟩ := strictTail_shape s2 o r sh h
      obtain ⟨d1, hs_eq, hd1⟩ := stripPrefixCI_shape patHttp s s1 h1
      obtain ⟨d2, hs2_eq, hd2⟩ := stripPrefixCI_shape patSepHost (optS s1) s2 h2
      cases s1 with
      | nil =>
        exfalso
        have hnone : stripPrefixCI patSepHost (optS ([] : List Char)) = none := rfl
        rw [hnone] at h2
        exact absurd h2 (by simp)
      | cons c rest =>
        by_cases hsc : ciEq 's' c = true
        · have hopt : optS (c :: rest) = rest := by simp [optS, hsc]
          rw [hopt] at hs2_eq
          refine ⟨d1 ++ c :: d2, o, r, dC, sh, ?_, Or.inr ?_, ho, hno, hr, hnr, hdc, hs, hall⟩
          · rw [hs_eq, hs2_eq, hshape]
            simp [List.append_assoc]
          · have hsplit : canonList (d1 ++ c :: d2) =
                canonList d1 ++ canon c :: canonList d2 := by
              simp [canonList]
            have hcs : canon c = canon 's' := (ciEq_iff.mp hsc).symm
            rw [hsplit, hd1, hd2, hcs]
            decide
        · have hopt : optS (c :: rest) = c :: rest := by
            simp only [optS, ite_eq_right_iff]
            intro hx
            exact absurd hx hsc
          rw [hopt] at hs2_eq
          refine ⟨d1 ++ d2, o, r, dC, sh, ?_, Or.inl ?_, ho, hno, hr, hnr, hdc, hs, hall⟩
          · rw [hs_eq, hs2_eq, hshape]
            simp [List.append_assoc]
          · have hsplit : canonList (d1 ++ d2) = canonList d1 ++ canonList d2 := by
              simp [canonList]
            rw [hsplit, hd1, hd2]
            decide

theorem specGateCI_has_slash : ∀ s, SpecGateCI s → '/' ∈ s := by
  intro s h
  obtain ⟨pre, o, r, cs, sh, heq, _⟩ := h
  rw [heq]
  simp

/-! ## Claim C1 -/

/-- C1 (counterexample): the claim reads the gate pattern with
case-insensitivity only on scheme and host and the sha restricted to
`[a-f0-9]`.  The input `https://github.com/o/r/commit/ABC` does not match
that reading (upper-case sha), yet `isGitHubCommitUrl` accepts it, because
the `/i` flag of the actual regex also folds the sha characters. -/
theorem c1_counterexample :
    specStrictPattern "https://github.com/o/r/commit/ABC" = false ∧
      isGitHubCommitUrl "https://github.com/o/r/commit/ABC" = true := by decide

/-- C1 (amended): for every string that does not match the gate pattern with
the `/i` flag applied throughout — so that the `commit` segment and the
hexadecimal sha also match case-insensitively — `isGitHubCommitUrl` returns
`false`. -/
theorem c1_gate_rejects_nonmatching :
    ∀ s : String, ¬ SpecGateCI s.toList → isGitHubCommitUrl s = false := by
  intro s hn
  cases hg : isGitHubCommitUrl s with
  | false => rfl
  | true =>
    exfalso
    unfold isGitHubCommitUrl at hg
    cases hm : strictMatch s.toList with
    | none => rw [hm] at hg; simp at hg
    | some t => exact hn (strictMatch_sound _ t hm)

/-- C1 (witness): the amended theorem applied to the concrete non-matching
input `"hello"`. -/
theorem c1_witness : isGitHubCommitUrl "hello" = false :=
  c1_gate_rejects_nonmatching "hello"
    (fun h => absurd (specGateCI_has_slash _ h) (by decide))

/-! ## Claims C6 and C9 -/

/-- C6 (confirmed): whenever the strict gate regex matches a URL with
capture groups `owner`, `repo`, `sha`, the permissive `parseCommitUrl`
succeeds on the same URL and extracts exactly that triple. -/
theorem c6_gate_parse_agree :
    ∀ (url : String) (o r sh : List Char),
      strictMatch url.toList = some (o, r, sh) →
      parseCommitUrl url = some ⟨o.asString, r.asString, sh.asString⟩ := by
  intro url o r sh h
  unfold parseCommitUrl
  rw [strict_to_search url.toList (o, r, sh) h]

/-- C6 (witness): the agreement theorem applied to a concrete well-formed
commit URL. -/
theorem c6_witness :
    parseCommitUrl "https://github.com/octo/repo/commit/abc123" =
      some ⟨"octo", "repo", "abc123"⟩ :=
  c6_gate_parse_agree _ _ _ _ (by decide)

theorem normalizeResponse_ne_invalidUrl (p : ParsedUrlRef) (d : GitHubCommitResponse) :
    normalizeResponse p d ≠ Except.error FetchError.invalidUrl := by
  unfold normalizeResponse
  split
  · simp
  · split
    · split <;> simp
    · simp

/-- C9 (confirmed): any URL accepted by the strict paste gate is also
accepted by the permissive parser, so `fetchCommit` can never take its
`throw new Error('Invalid GitHub commit URL')` branch for an input that
passed the gate, whatever the network does. -/
theorem c9_invalid_branch_unreachable :
    ∀ (url : String) (net : Except String GitHubCommitResponse),
      isGitHubCommitUrl url = true →
      fetchCommit url net ≠ Except.error FetchError.invalidUrl := by
  intro url net hg
  unfold isGitHubCommitUrl at hg
  cases hm : strictMatch url.toList with
  | none => rw [hm] at hg; simp at hg
  | some t =>
    obtain ⟨o, r, sh⟩ := t
    have hp : parseCommitUrl url = some ⟨o.asString, r.asString, sh.asString⟩ := by
      unfold parseCommitUrl
      rw [strict_to_search url.toList (o, r, sh) hm]
    simp only [fetchCommit, hp]
    cases net with
    | error m => simp
    | ok data => exact normalizeResponse_ne_invalidUrl _ data

/-- C9 (witness): the unreachability theorem applied to a concrete gated URL
with a failing network. -/
theorem c9_witness :
    fetchCommit "https://github.com/octo/repo/commit/abc123" (Except.error "down") ≠
      Except.error FetchError.invalidUrl :=
  c9_invalid_branch_unreachable _ _ (by decide)

/-! ## Claim C4 -/

/-- C4 (counterexample): on the unparseable input `not-a-date`, `formatDate`
returns the constant string `Invalid Date` — the rendering of JavaScript's
invalid `Date` value — and not the literal input string claimed by the
specification. -/
theorem c4_counterexample :
    formatDate "not-a-date" = "Invalid Date" ∧
      ("Invalid Date" : String) ≠ "not-a-date" := by decide

/-- C4 (amended): for every input string that cannot be parsed as a date,
`formatDate` returns the constant string `Invalid Date` (not the literal
input); being a total function of its input it never throws. -/
theorem c4_invalid_date_fallback :
    ∀ s : String, parseIsoDate s = none → formatDate s = "Invalid Date" := by
  intro s h
  unfold formatDate
  rw [h]

/-- C4 (witness): the amended theorem applied to the concrete unparseable
input. -/
theorem c4_witness : formatDate "not-a-date" = "Invalid Date" :=
  c4_invalid_date_fallback "not-a-date" (by decide)

/-! ## Claim C2 -/

/-- C2 (counterexample): a success-status body missing the required `sha`
field (with `commit.message` and `commit.author.date` present) does not make
`fetchCommit` fail: it returns a `CommitData` whose `sha` is `undefined`,
exposing a partially-valid record downstream — there is no
`MalformedResponseError`. -/
theorem c2_counterexample :
    fetchCommit "https://github.com/o/r/commit/abc"
        (Except.ok
          { sha := none
            html_url := some "https://github.com/o/r/commit/abc"
            commit := some
              { message := some "Fix bug"
                author := some { name := some "Jane", date := some "2024-01-05T10:00:00Z" } }
            author := none
            stats := none }) =
      Except.ok
        { sha := none
          message := some "Fix bug"
          author := { login := some "Jane", avatarUrl := "" }
          date := some "2024-01-05T10:00:00Z"
          stats := { additions := 0, deletions := 0 }
          url := some "https://github.com/o/r/commit/abc"
          owner := "o"
          repo := "r" } := by rfl

/-- C2 (amended): `fetchCommit` performs no field validation.  When the
`commit` object or the `commit.author` object is missing, construction of
`CommitData` throws a JavaScript `TypeError` (there is no dedicated
`MalformedResponseError`); when both objects are present, construction
always succeeds and the leaf fields `sha`, `commit.message` and
`commit.author.date` are copied through unchecked, so they may be
`undefined` in the result. -/
theorem c2_no_field_validation :
    ∀ (p : ParsedUrlRef) (d : GitHubCommitResponse),
      ((d.commit = none ∨ ∃ c, d.commit = some c ∧ c.author = none) →
        ∃ m, normalizeResponse p d = Except.error (FetchError.typeError m)) ∧
      (∀ c a, d.commit = some c → c.author = some a →
        ∃ cd, normalizeResponse p d = Except.ok cd ∧
          cd.sha = d.sha ∧ cd.message = c.message ∧ cd.date = a.date) := by
  intro p d
  constructor
  · intro hmiss
    cases hc : d.commit with
    | none =>
      exact ⟨"message", by simp [normalizeResponse, hc]⟩
    | some c =>
      rcases hmiss with hnone | ⟨c', hc', ha'⟩
      · rw [hc] at hnone
        exact absurd hnone (by simp)
      · rw [hc] at hc'
        injection hc' with hcc
        subst hcc
        cases hja : jsTruthy (d.author.bind RawAccount.login) with
        | true => exact ⟨"date", by simp [normalizeResponse, hc, ha', hja]⟩
        | false => exact ⟨"name", by simp [normalizeResponse, hc, ha', hja]⟩
  · intro c a hc ha
    refine ⟨{ sha := d.sha
              message := c.message
              author := { login := jsOrOpt (d.author.bind RawAccount.login) a.name
                          avatarUrl := jsOrStr (d.author.bind RawAccount.avatar_url) "" }
              date := a.date
              stats := { additions := jsOrNat (d.stats.bind RawStats.additions) 0
                         deletions := jsOrNat (d.stats.bind RawStats.deletions) 0 }
              url := d.html_url
              owner := p.owner
              repo := p.repo }, ?_, rfl, rfl, rfl⟩
    simp [normalizeResponse, hc, ha]

/-- C2 (witness): the amended theorem applied to a concrete response with
`commit` and `commit.author` present but `sha` absent. -/
theorem c2_witness :
    ∃ cd, normalizeResponse ⟨"o", "r", "abc"⟩
        { sha := none
          html_url := some "u"
          commit := some { message := some "m", author := some { name := some "n", date := some "d" } }
          author := none
          stats := none } = Except.ok cd ∧
      cd.sha = (none : Option String) ∧ cd.message = some "m" ∧ cd.date = some "d" := by
  have h := (c2_no_field_validation ⟨"o", "r", "abc"⟩
    { sha := none
      html_url := some "u"
      commit := some { message := some "m", author := some { name := some "n", date := some "d" } }
      author := none
      stats := none }).2
    { message := some "m", author := some { name := some "n", date := some "d" } }
    { name := some "n", date := some "d" } rfl rfl
  exact h

/-! ## Claim C5 -/

/-- C5 (confirmed): the fallback rules of the success mapping.  Whenever the
construction succeeds, `author.login` takes a present non-empty platform
login, and falls back to the raw commit-author name when the response has no
`author` object; `avatarUrl` is the empty string when no account avatar
exists; `stats` defaults to zeros when the `stats` field is absent; and
`url` is always the response's `html_url`, never rebuilt from the request
parameters. -/
theorem c5_normalization_rules :
    ∀ (p : ParsedUrlRef) (d : GitHubCommitResponse) (c : RawCommit)
      (a : RawCommitAuthor) (cd : CommitData),
      d.commit = some c → c.author = some a →
      normalizeResponse p d = Except.ok cd →
      (∀ s, d.author.bind RawAccount.login = some s → s ≠ "" →
        cd.author.login = some s) ∧
      (d.author = none → cd.author.login = a.name) ∧
      ((d.author = none ∨ d.author.bind RawAccount.avatar_url = none) →
        cd.author.avatarUrl = "") ∧
      (d.stats = none → cd.stats = { additions := 0, deletions := 0 }) ∧
      cd.url = d.html_url := by
  intro p d c a cd hc ha hok
  simp only [normalizeResponse, hc, ha, Except.ok.injEq] at hok
  subst hok
  refine ⟨?_, ?_, ?_, ?_, rfl⟩
  · intro s hs hne
    simp [jsOrOpt, hs, hne]
  · intro h0
    simp [jsOrOpt, h0]
  · intro h0
    rcases h0 with h0 | h0
    · simp [jsOrStr, h0]
    · simp [jsOrStr, h0]
  · intro h0
    simp [jsOrNat, h0]

/-- The specification's §8 example response: no `author` object, no `stats`,
raw commit-author name `Jane`. -/
def janeResponse : GitHubCommitResponse :=
  { sha := some "abc123d"
    html_url := some "https://github.com/o/r/commit/abc123d"
    commit := some
      { message := some "Fix bug"
        author := some { name := some "Jane", date := some "2024-01-05T10:00:00Z" } }
    author := none
    stats := none }

/-- The `CommitData` the code builds from `janeResponse`. -/
def janeCommitData : CommitData :=
  { sha := some "abc123d"
    message := some "Fix bug"
    author := { login := some "Jane", avatarUrl := "" }
    date := some "2024-01-05T10:00:00Z"
    stats := { additions := 0, deletions := 0 }
    url := some "https://github.com/o/r/commit/abc123d"
    owner := "o"
    repo := "r" }

/-- C5 (witness): the mapping theorem applied to the specification's
concrete example — login `Jane`, empty avatar, zero stats, verbatim URL. -/
theorem c5_witness :
    janeCommitData.author.login = some "Jane" ∧
      janeCommitData.author.avatarUrl = "" ∧
      janeCommitData.stats = { additions := 0, deletions := 0 } ∧
      janeCommitData.url = janeResponse.html_url := by
  have h := c5_normalization_rules ⟨"o", "r", "abc123d"⟩ janeResponse
    { message := some "Fix bug"
      author := some { name := some "Jane", date := some "2024-01-05T10:00:00Z" } }
    { name := some "Jane", date := some "2024-01-05T10:00:00Z" }
    janeCommitData rfl rfl (by rfl)
  exact ⟨h.2.1 rfl, h.2.2.1 (Or.inl rfl), h.2.2.2.1 rfl, h.2.2.2.2⟩

/-! ## Claim C10 -/

/-- C10 (confirmed): because the fallbacks use `||`, an empty-string account
login or avatar URL is treated exactly like an absent one: the login falls
back to the raw commit-author name and the avatar becomes the empty string;
consequently the normalized login is non-empty whenever the raw name is
non-empty, and the account's empty string is never kept as the login. -/
theorem c10_empty_login_fallback :
    ∀ (p : ParsedUrlRef) (d : GitHubCommitResponse) (c : RawCommit)
      (a : RawCommitAuthor) (cd : CommitData),
      d.commit = some c → c.author = some a →
      normalizeResponse p d = Except.ok cd →
      (d.author.bind RawAccount.login = some "" → cd.author.login = a.name) ∧
      (d.author.bind RawAccount.avatar_url = some "" → cd.author.avatarUrl = "") ∧
      (∀ s, a.name = some s → s ≠ "" →
        ∃ t, cd.author.login = some t ∧ t ≠ "") := by
  intro p d c a cd hc ha hok
  simp only [normalizeResponse, hc, ha, Except.ok.injEq] at hok
  subst hok
  refine ⟨?_, ?_, ?_⟩
  · intro h0
    simp [jsOrOpt, h0]
  · intro h0
    simp [jsOrStr, h0]
  · intro s hs hne
    cases hacc : d.author.bind RawAccount.login with
    | none => exact ⟨s, by simp [jsOrOpt, hacc, hs], hne⟩
    | some u =>
      by_cases hu : u = ""
      · exact ⟨s, by simp [jsOrOpt, hacc, hu, hs], hne⟩
      · exact ⟨u, by simp [jsOrOpt, hacc, hu], hu⟩

/-- A response whose platform account carries empty-string `login` and
`avatar_url`. -/
def emptyLoginResponse : GitHubCommitResponse :=
  { sha := some "abc"
    html_url := some "u"
    commit := some { message := some "m", author := some { name := some "Jane", date := some "d" } }
    author := some { login := some "", avatar_url := some "" }
    stats := none }

/-- The `CommitData` the code builds from `emptyLoginResponse`: the empty
account login is discarded in favour of the raw name. -/
def emptyLoginCommitData : CommitData :=
  { sha := some "abc"
    message := some "m"
    author := { login := some "Jane", avatarUrl := "" }
    date := some "d"
    stats := { additions := 0, deletions := 0 }
    url := some "u"
    owner := "o"
    repo := "r" }

/-- C10 (witness): the fallback theorem applied to the concrete response
with empty-string account fields. -/
theorem c10_witness :
    emptyLoginCommitData.author.login = some "Jane" ∧
      emptyLoginCommitData.author.avatarUrl = "" := by
  have h := c10_empty_login_fallback ⟨"o", "r", "abc"⟩ emptyLoginResponse
    { message := some "m", author := some { name := some "Jane", date := some "d" } }
    { name := some "Jane", date := some "d" } emptyLoginCommitData rfl rfl (by rfl)
  exact ⟨h.1 rfl, h.2.1 rfl⟩

/-! ## Claims C7 and C8 -/

/-- C7 (confirmed): when the fetch failed — the modal shows the error
preview and `this.commitData` is still `null` — clicking `Embed` performs no
editor mutation: the editor state is returned unchanged and the modal
closes. -/
theorem c7_embed_noop_on_error :
    ∀ (url : String) (net : Except String GitHubCommitResponse) (e : FetchError)
      (render : String → String) (ed : EditorState),
      fetchCommit url net = Except.error e →
      embedClick (commitDataAfterOpen url net) render ed =
        { editor := ed, closed := true } := by
  intro url net e render ed h
  simp only [commitDataAfterOpen, h]
  rfl

/-- C7 (witness): the no-op theorem applied to a concrete failed fetch (the
URL is rejected by the parser). -/
theorem c7_witness :
    embedClick (commitDataAfterOpen "nonsense" (Except.error "down")) id
        { before := "A", selection := "B", after := "C" } =
      { editor := { before := "A", selection := "B", after := "C" }, closed := true } :=
  c7_embed_noop_on_error "nonsense" (Except.error "down") FetchError.invalidUrl id
    { before := "A", selection := "B", after := "C" } (by rfl)

/-- C8 (confirmed): `Paste as text` inserts exactly the URL string the modal
was opened with at the current selection — the document becomes
`before ++ url ++ after` — and closes; `Cancel` closes while leaving the
editor state (and hence the document) entirely unchanged, whatever fetch
outcome preceded the click. -/
theorem c8_text_and_cancel_frame :
    ∀ (url : String) (ed : EditorState),
      (textClick url ed).editor.content = ed.before ++ url ++ ed.after ∧
      (textClick url ed).closed = true ∧
      cancelClick ed = { editor := ed, closed := true } := by
  intro url ed
  refine ⟨?_, rfl, rfl⟩
  simp [textClick, replaceSelection, EditorState.content]

/-! ## Claim C3 -/

/-- C3 (counterexample): the first visible state after the modal opens — the
`Loading` state, before the fetch resolves — has no decision controls:
`renderButtons` only runs after the `await` settles, so the claim that the
controls are present in every post-open state fails at this state. -/
theorem c3_counterexample :
    (onOpenStates "https://github.com/o/r/commit/abc" (Except.error "down")).head? =
      some { preview := PreviewState.loading, buttonsRendered := false } := by rfl

/-- C3 (amended): the decision controls are rendered only once the fetch
settles: every modal state still showing the loading indicator has no
buttons, while the final state of `onOpen` shows the settled preview (card
or error text, never the loading indicator) together with the three
buttons. -/
theorem c3_buttons_after_settle :
    ∀ (url : String) (net : Except String GitHubCommitResponse),
      (onOpenStates url net).getLast? =
        some { preview := settledPreview url net, buttonsRendered := true } ∧
      settledPreview url net ≠ PreviewState.loading ∧
      (∀ v ∈ onOpenStates url net, v.preview = PreviewState.loading →
        v.buttonsRendered = false) := by
  intro url net
  have hne : settledPreview url net ≠ PreviewState.loading := by
    unfold settledPreview
    split <;> simp
  refine ⟨rfl, hne, ?_⟩
  intro v hv hl
  simp only [onOpenStates, List.mem_cons, List.not_mem_nil, or_false] at hv
  rcases hv with rfl | rfl | rfl
  · rfl
  · rfl
  · exact absurd hl hne

/-- C3 (witness): the amended theorem applied at a concrete URL and failing
network: the loading state (which is a member of the state sequence) has no
buttons, and the last state carries them. -/
theorem c3_witness :
    ({ preview := PreviewState.loading, buttonsRendered := false } : ModalView).buttonsRendered
        = false ∧
      (onOpenStates "https://github.com/o/r/commit/abc" (Except.error "down")).getLast? =
        some { preview := settledPreview "https://github.com/o/r/commit/abc" (Except.error "down")
               buttonsRendered := true } := by
  have h := c3_buttons_after_settle "https://github.com/o/r/commit/abc" (Except.error "down")
  exact ⟨h.2.2 { preview := PreviewState.loading, buttonsRendered := false }
    (by simp [onOpenStates]) rfl, h.1⟩
